import Mathlib

/-!
Verification of the photo-reducer incremental image-reduction engine.

The definitions below are a shallow embedding of the engine implemented in
src/cli.ts: the pure resize/quality computations are translated directly,
timestamps are modelled as integers (milliseconds), the filesystem visible to
the output-commit step is an association list from paths to byte lists, and
each fallible I/O primitive is given an explicit failure switch so that every
error path of the code can be exercised.
-/

namespace PhotoReducer

/-- Rounding as performed by Math.round in the implementation language:
round half toward positive infinity, i.e. the floor of x + 1/2. -/
def jsRound (q : ℚ) : ℤ := ⌊q + 1 / 2⌋

/-- Translation of clampQuality (cli.ts): max(30, min(90, round(rate * 100))). -/
def clampQuality (rate : ℚ) : ℤ := max 30 (min 90 (jsRound (rate * 100)))

/-- The local scaledWidth binding of computeResize (cli.ts):
max(1, round(sourceWidth * rate)). -/
def scaledWidthOf (sourceWidth : ℕ) (rate : ℚ) : ℤ :=
  max 1 (jsRound (sourceWidth * rate))

/-- The local limitedWidth binding of computeResize (cli.ts):
min(scaledWidth, maxOutputWidth) when a max width is configured. -/
def limitedWidthOf (sourceWidth : ℕ) (rate : ℚ) (maxOutputWidth : Option ℤ) : ℤ :=
  match maxOutputWidth with
  | some m => min (scaledWidthOf sourceWidth rate) m
  | none => scaledWidthOf sourceWidth rate

/-- Translation of computeResize (cli.ts). Unknown (absent) or zero source
dimensions are falsy in the implementation and yield no resize plan. -/
def computeResize (sourceWidth sourceHeight : Option ℕ) (rate : ℚ)
    (maxOutputWidth : Option ℤ) : Option (ℤ × ℤ) :=
  match sourceWidth, sourceHeight with
  | some w, some h =>
    if w = 0 ∨ h = 0 then none
    else
      let limitedWidth := limitedWidthOf w rate maxOutputWidth
      let appliedRate : ℚ := (limitedWidth : ℚ) / (w : ℚ)
      some (limitedWidth, max 1 (jsRound (h * appliedRate)))
  | _, _ => none

/-- Source image formats distinguished by the encode switch of shrinkImage. -/
inductive ImageFormat where
  | jpeg
  | jpg
  | webp
  | png
  | avif
  | heif
  | other
  deriving DecidableEq, Repr

/-- The validated png-format option (output format for PNG inputs). -/
inductive PngFormat where
  | png
  | webp
  | avif
  deriving DecidableEq, Repr

/-- Encoder invocation chosen by the switch statement of shrinkImage. -/
inductive EncodeOp where
  | jpegOp (quality : ℤ)
  | webpOp (quality : ℤ)
  | pngOp (compressionLevel : ℤ)
  | avifOp (quality : ℤ)
  | heifOp (quality : ℤ)
  | noOp
  deriving DecidableEq, Repr

/-- Translation of the encoder-selection switch of shrinkImage (cli.ts):
JPEG, WEBP, AVIF and HEIF re-encode in-place with the computed quality, PNG
follows the configured png output format (native PNG uses compressionLevel 9
and ignores the quality), and any other format gets no pipeline step. -/
def selectEncodeOp (format : ImageFormat) (pngFormat : PngFormat)
    (quality : ℤ) : EncodeOp :=
  match format with
  | .jpeg => .jpegOp quality
  | .jpg => .jpegOp quality
  | .webp => .webpOp quality
  | .png =>
    match pngFormat with
    | .webp => .webpOp quality
    | .avif => .avifOp quality
    | .png => .pngOp 9
  | .avif => .avifOp quality
  | .heif => .heifOp quality
  | .other => .noOp

/-- One enumerated entry of the per-file loop of processDirectory (cli.ts).
The stat call of the loop happens before the try block, so it is modelled as
its own failure mode; an entry that stats successfully carries the observed
modification time, whether the path is a regular file, and whether the
shrinkImage call for it succeeds. -/
inductive FileSpec where
  | statFail : FileSpec
  | entry (mtime : Int) (isFile : Bool) (shrinkOk : Bool) : FileSpec
  deriving DecidableEq, Repr

/-- Translation of the loop of processDirectory (cli.ts): skip non-files,
skip files with mtime at or before the baseline, count successful shrinks and
track the largest processed mtime, swallow shrink errors and continue, and
propagate a stat failure (which is raised outside the try block) as a failure
of the whole pass. Arguments: baseline, latestProcessedAt accumulator
(initially the baseline), processedCount accumulator, remaining entries. -/
def processDirectory : Int → Int → Nat → List FileSpec → Option (Int × Nat)
  | _, latest, count, [] => some (latest, count)
  | _, _, _, FileSpec.statFail :: _ => none
  | sinceDate, latest, count, FileSpec.entry mtime isFile shrinkOk :: rest =>
    if isFile = false then processDirectory sinceDate latest count rest
    else if mtime ≤ sinceDate then processDirectory sinceDate latest count rest
    else if shrinkOk = true then
      processDirectory sinceDate (max latest mtime) (count + 1) rest
    else processDirectory sinceDate latest count rest

/-- Translation of maxDate (cli.ts): a > b ? a : b. -/
def maxDate (a b : Int) : Int := if b < a then a else b

/-- Translation of computeUpdatedLastProcessedAt (cli.ts). -/
def computeUpdatedLastProcessedAt (recordedAt latestProcessedAt : Int)
    (processedCount : Nat) (sinceOverride : Option Int)
    (shouldWriteMetadata : Bool) : Int :=
  if shouldWriteMetadata = false then recordedAt
  else if processedCount = 0 then sinceOverride.getD recordedAt
  else maxDate recordedAt latestProcessedAt

/-- Translation of determineSince (cli.ts): override ?? recordedAt. -/
def determineSince (recordedAt : Int) (override : Option Int) : Int :=
  override.getD recordedAt

/-- Result of one runBatchProcess cycle (cli.ts). -/
structure BatchResult where
  processedCount : Nat
  updatedLastProcessedAt : Int
  shouldWriteMetadata : Bool
  deriving DecidableEq, Repr

/-- Translation of runBatchProcess (cli.ts). The stored metadata value is an
optional instant (readMetadata synthesizes the current instant when the file
is absent, reporting existed = false); the candidate entries stand for the
enumeration result. A none result is a cycle aborted by an escaping error. -/
def runBatchProcess (now : Int) (stored : Option Int) (sinceOverride : Option Int)
    (forceBaselineWrite : Bool) (files : List FileSpec) : Option BatchResult :=
  match processDirectory (determineSince (stored.getD now) sinceOverride)
      (determineSince (stored.getD now) sinceOverride) 0 files with
  | none => none
  | some (latest, count) =>
    some ⟨count,
      computeUpdatedLastProcessedAt (stored.getD now) latest count sinceOverride
        (decide (0 < count) || !stored.isSome || forceBaselineWrite),
      decide (0 < count) || !stored.isSome || forceBaselineWrite⟩

/-- The conditional metadata write performed after a cycle (cli.ts,
validateAndExecute and the watch cycle): the record is overwritten with the
updated instant exactly when shouldWriteMetadata holds, else left untouched. -/
def applyMetadataWrite (stored : Option Int) (r : BatchResult) : Option Int :=
  if r.shouldWriteMetadata = true then some r.updatedLastProcessedAt else stored

/-- In-memory state of the watch loop of startWatchMode (cli.ts): the mutable
sinceForWatch override and the on-disk metadata record. -/
structure WatchState where
  sinceForWatch : Option Int
  stored : Option Int
  deriving DecidableEq, Repr

/-- Translation of one watch cycle of startWatchMode (cli.ts): run the batch
pass with the fixed forceBaselineWrite flag of the session; on success write
metadata when eligible and, when an override is in play, advance it to the
newly persisted instant; an escaping error is caught and changes nothing.
Returns the new state and whether the metadata file was written. -/
def watchCycle (forceBaselineWrite : Bool) (now : Int) (files : List FileSpec)
    (st : WatchState) : WatchState × Bool :=
  match runBatchProcess now st.stored st.sinceForWatch forceBaselineWrite files with
  | none => (st, false)
  | some r =>
    if r.shouldWriteMetadata = true then
      (⟨if st.sinceForWatch.isSome then some r.updatedLastProcessedAt
        else st.sinceForWatch,
        some r.updatedLastProcessedAt⟩, true)
    else (st, false)

/-- Filesystem fragment visible to the output-commit step: an association
list from absolute paths to file contents (byte lists). -/
abbrev FS := List (String × List Nat)

/-- Content stored at a path, if any. -/
def fsLookup : FS → String → Option (List Nat)
  | [], _ => none
  | (q, v) :: rest, p => if q = p then some v else fsLookup rest p

/-- Delete every entry at a path. -/
def fsRemove : FS → String → FS
  | [], _ => []
  | (q, v) :: rest, p =>
    if q = p then fsRemove rest p else (q, v) :: fsRemove rest p

/-- Overwrite the content at a path. -/
def fsInsert (fs : FS) (p : String) (v : List Nat) : FS :=
  (p, v) :: fsRemove fs p

/-- Failure switches for the fallible I/O steps of shrinkImage (cli.ts):
the stat of the source, the stat of the freshly encoded temporary file, the
copy of the original to the fallback path, the rename of the temporary file
onto the primary target, and the stat of the written fallback file. -/
structure CommitEnv where
  statSourceFails : Bool
  statTmpFails : Bool
  copyFails : Bool
  moveFails : Bool
  statFallbackFails : Bool
  deriving DecidableEq, Repr

/-- The environment in which every I/O step of shrinkImage succeeds. -/
def happyEnv : CommitEnv := ⟨false, false, false, false, false⟩

/-- Return value of shrinkImage (cli.ts). -/
structure CommitResult where
  originalSize : Nat
  optimizedSize : Nat
  writtenPath : String
  deriving DecidableEq, Repr

/-- Translation of the commit portion of shrinkImage (cli.ts). The codec
pipeline is abstracted as its outcome: the bytes it writes to the temporary
path, or none when encoding fails (leaving nothing behind). The function
returns the result of the call (none when an error is thrown) together with
the filesystem as it is left by the call. -/
def shrinkImage (fs : FS) (sourcePath targetPath fallbackTargetPath : String)
    (encoded : Option (List Nat)) (env : CommitEnv) : Option CommitResult × FS :=
  if env.statSourceFails = true then (none, fs)
  else
    match fsLookup fs sourcePath with
    | none => (none, fs)
    | some sourceBytes =>
      match encoded with
      | none => (none, fs)
      | some candidate =>
        let tmpPath := targetPath ++ ".tmp"
        let fs1 := fsInsert fs tmpPath candidate
        if env.statTmpFails = true then (none, fs1)
        else if sourceBytes.length ≤ candidate.length then
          let fs2 := fsRemove fs1 tmpPath
          if env.copyFails = true then (none, fs2)
          else
            let fs3 := fsInsert fs2 fallbackTargetPath sourceBytes
            if env.statFallbackFails = true then (none, fs3)
            else (some ⟨sourceBytes.length, sourceBytes.length, fallbackTargetPath⟩, fs3)
        else
          if env.moveFails = true then (none, fs1)
          else (some ⟨sourceBytes.length, candidate.length, targetPath⟩,
            fsInsert (fsRemove fs1 tmpPath) targetPath candidate)

/-- Basename of a path: the characters after the last slash. -/
def afterLastSlash (l : List Char) : List Char :=
  ((l.reverse.takeWhile (fun c => c != '/')).reverse)

/-- Lower-casing of one ASCII character. -/
def charLower (c : Char) : Char :=
  if 65 ≤ c.toNat ∧ c.toNat ≤ 90 then Char.ofNat (c.toNat + 32) else c

/-- Lower-casing of a string, character by character. -/
def lowerStr (s : String) : String := String.mk (s.data.map charLower)

/-- Extension of a path in the manner of path.extname: the suffix of the
basename from its last dot, empty for a plain or dot-leading basename. -/
def extname (p : String) : String :=
  let base := afterLastSlash p.data
  let revTail := base.reverse.takeWhile (fun c => c != '.')
  if revTail.length = base.length then ""
  else if revTail.length + 1 = base.length then ""
  else String.mk ('.' :: revTail.reverse)

/-- Output paths of one candidate (getOutputPaths, cli.ts). -/
structure OutputPaths where
  primaryRelativePath : String
  fallbackRelativePath : String
  deriving DecidableEq, Repr

/-- Translation of getOutputPaths (cli.ts): a PNG input gets its extension
rewritten when an alternate png output format is configured; the fallback
relative path is always the unmodified relative path. -/
def getOutputPaths (relativePath : String) (pngFormat : PngFormat) : OutputPaths :=
  let ext := lowerStr (extname relativePath)
  let base := String.mk (relativePath.data.take (relativePath.data.length - ext.data.length))
  let fallbackRelativePath := relativePath
  if ext = ".png" then
    match pngFormat with
    | .webp => ⟨base ++ ".webp", fallbackRelativePath⟩
    | .avif => ⟨base ++ ".avif", fallbackRelativePath⟩
    | .png => ⟨relativePath, fallbackRelativePath⟩
  else ⟨relativePath, fallbackRelativePath⟩

/-! Helper lemmas about the filesystem fragment. -/

theorem fsLookup_fsRemove_self (fs : FS) (p : String) :
    fsLookup (fsRemove fs p) p = none := by
  induction fs with
  | nil => rfl
  | cons head tail ih =>
    obtain ⟨a, v⟩ := head
    by_cases ha : a = p
    · simpa [fsRemove, ha] using ih
    · simpa [fsRemove, fsLookup, ha] using ih

theorem fsLookup_fsRemove_ne (fs : FS) (p q : String) (h : q ≠ p) :
    fsLookup (fsRemove fs p) q = fsLookup fs q := by
  induction fs with
  | nil => rfl
  | cons head tail ih =>
    obtain ⟨a, v⟩ := head
    by_cases ha : a = p
    · subst ha
      have haq : a ≠ q := fun e => h e.symm
      simpa [fsRemove, fsLookup, haq] using ih
    · by_cases haq : a = q
      · simp [fsRemove, fsLookup, ha, haq, h]
      · simpa [fsRemove, fsLookup, ha, haq] using ih

theorem fsLookup_fsInsert_self (fs : FS) (p : String) (v : List Nat) :
    fsLookup (fsInsert fs p v) p = some v := by
  simp [fsInsert, fsLookup]

theorem fsLookup_fsInsert_ne (fs : FS) (p q : String) (v : List Nat) (h : q ≠ p) :
    fsLookup (fsInsert fs p v) q = fsLookup fs q := by
  have hpq : p ≠ q := fun e => h e.symm
  rw [fsInsert]
  show fsLookup ((p, v) :: fsRemove fs p) q = fsLookup fs q
  rw [fsLookup, if_neg hpq]
  exact fsLookup_fsRemove_ne fs p q h

/-- Claim C8: for every rate in (0, 1], the computed encoder quality is
round(rate * 100) clamped to the interval 30..90, hence always lies in that
interval, and the function is monotonically non-decreasing in the rate. -/
theorem clampQuality_range_mono (r : ℚ) (_h0 : 0 < r) (_h1 : r ≤ 1) :
    30 ≤ clampQuality r ∧ clampQuality r ≤ 90 ∧
    ∀ r2 : ℚ, r ≤ r2 → clampQuality r ≤ clampQuality r2 := by
  refine ⟨le_max_left _ _, max_le (by norm_num) (min_le_left _ _), ?_⟩
  intro r2 hr
  have hfl : jsRound (r * 100) ≤ jsRound (r2 * 100) := by
    unfold jsRound
    exact Int.floor_le_floor (by linarith)
  exact max_le_max le_rfl (min_le_min le_rfl hfl)

theorem clampQuality_range_mono_witness :
    30 ≤ clampQuality (1 / 2 : ℚ) ∧ clampQuality (1 / 2 : ℚ) ≤ 90 := by
  have h := clampQuality_range_mono (1 / 2 : ℚ) (by norm_num) (by norm_num)
  exact ⟨h.1, h.2.1⟩

/-- Claim C7: for a source with known positive dimensions, the planned width
is the scaled width min-clamped by the configured maximum (equal to the
maximum exactly when the scaled width exceeds it), the planned height is
rounded from the height scaled by the applied rate limitedWidth / sourceWidth,
and unknown dimensions yield no plan. -/
theorem computeResize_spec (w h : ℕ) (rate : ℚ) (maxW : Option ℤ)
    (hw : 0 < w) (hh : 0 < h) :
    computeResize (some w) (some h) rate maxW =
      some (limitedWidthOf w rate maxW,
        max 1 (jsRound (h * ((limitedWidthOf w rate maxW : ℚ) / (w : ℚ))))) ∧
    (∀ m : ℤ, maxW = some m → m < scaledWidthOf w rate →
      limitedWidthOf w rate maxW = m) ∧
    computeResize none (some h) rate maxW = none ∧
    computeResize (some w) none rate maxW = none := by
  refine ⟨?_, ?_, rfl, rfl⟩
  · rw [computeResize]
    rw [if_neg (by omega)]
  · rintro m rfl hm
    rw [limitedWidthOf]
    exact min_eq_right hm.le

theorem computeResize_spec_witness :
    computeResize (some 1000) (some 800) (1 / 2 : ℚ) (some 400) = some (400, 320) := by
  have h := (computeResize_spec 1000 800 (1 / 2 : ℚ) (some 400)
    (by norm_num) (by norm_num)).1
  rw [h]
  norm_num [limitedWidthOf, scaledWidthOf, jsRound]

/-- Claim C10: a PNG source with the native png output format is always
encoded with fixed compressionLevel 9 regardless of the rate-derived quality,
while JPEG, WEBP, AVIF, HEIF and the alternate-lossy PNG outputs do receive
the computed quality. -/
theorem selectEncodeOp_png_native (rate1 rate2 : ℚ) :
    selectEncodeOp .png .png (clampQuality rate1) = .pngOp 9 ∧
    selectEncodeOp .png .png (clampQuality rate1) =
      selectEncodeOp .png .png (clampQuality rate2) ∧
    (∀ q : ℤ, selectEncodeOp .jpeg .png q = .jpegOp q) ∧
    (∀ q : ℤ, selectEncodeOp .jpg .png q = .jpegOp q) ∧
    (∀ q : ℤ, selectEncodeOp .webp .png q = .webpOp q) ∧
    (∀ q : ℤ, selectEncodeOp .avif .png q = .avifOp q) ∧
    (∀ q : ℤ, selectEncodeOp .heif .png q = .heifOp q) ∧
    (∀ q : ℤ, selectEncodeOp .png .webp q = .webpOp q) ∧
    (∀ q : ℤ, selectEncodeOp .png .avif q = .avifOp q) :=
  ⟨rfl, rfl, fun _ => rfl, fun _ => rfl, fun _ => rfl, fun _ => rfl,
    fun _ => rfl, fun _ => rfl, fun _ => rfl⟩

/-- Claim C5: the per-file loop selects a candidate exactly when its
modification time is strictly greater than the effective baseline: the
processing step fires precisely under that strict comparison, a file whose
mtime equals the baseline contributes nothing, and a file one millisecond
after the baseline is processed. -/
theorem processDirectory_strict_filter (since m latest : Int) (count : Nat)
    (rest : List FileSpec) :
    (m ≤ since →
      processDirectory since latest count (.entry m true true :: rest) =
        processDirectory since latest count rest) ∧
    (since < m →
      processDirectory since latest count (.entry m true true :: rest) =
        processDirectory since (max latest m) (count + 1) rest) ∧
    processDirectory since since 0 [.entry since true true] = some (since, 0) ∧
    processDirectory since since 0 [.entry (since + 1) true true] =
      some (since + 1, 1) := by
  refine ⟨?_, ?_, ?_, ?_⟩
  · intro hle
    rw [processDirectory]
    simp [hle]
  · intro hlt
    rw [processDirectory]
    simp [not_le.mpr hlt]
  · rw [processDirectory]
    simp [processDirectory]
  · rw [processDirectory]
    rw [if_neg (by simp), if_neg (by omega), if_pos rfl]
    rw [processDirectory]
    rw [max_eq_right (by omega : since ≤ since + 1)]

theorem processDirectory_strict_filter_witness :
    processDirectory 0 0 0 [.entry 1 true true] = some (1, 1) := by
  have h := (processDirectory_strict_filter 0 1 0 0 []).2.1 (by norm_num)
  rw [h]
  decide

/-- Claim C4 counterexample: a stat failure for the first candidate aborts
the entire pass (the loop stat is raised outside the per-file try block), so
the second candidate, which on its own would be processed, yields nothing. -/
theorem stat_failure_aborts_pass :
    processDirectory 0 0 0 [.statFail, .entry 5 true true] = none ∧
    processDirectory 0 0 0 [.entry 5 true true] = some (5, 1) := by
  decide

/-- Claim C4 amended: a shrink failure (codec, commit, or any stat inside the
commit step) for one candidate is contained: the pass behaves exactly as if
that candidate were absent, so every other file's outcome and the final
count and latest-mtime accumulators are unchanged; only the loop-level stat
failure aborts the pass. -/
theorem per_file_error_containment (since m : Int) (isFile : Bool)
    (l1 l2 : List FileSpec) :
    ∀ (latest : Int) (count : Nat),
      processDirectory since latest count
          (l1 ++ FileSpec.entry m isFile false :: l2) =
        processDirectory since latest count (l1 ++ l2) := by
  induction l1 with
  | nil =>
    intro latest count
    cases isFile <;> simp [processDirectory]
  | cons head tail ih =>
    intro latest count
    cases head with
    | statFail => simp [processDirectory]
    | entry hm hisF hok =>
      rw [List.cons_append, List.cons_append, processDirectory, processDirectory]
      split_ifs <;> exact ih _ _

/-- Concrete one-file filesystem used to instantiate the commit theorems. -/
def fsA : FS := [("s", [1, 2, 3])]

/-- The source path of the concrete filesystem. -/
def spA : String := "s"

/-- A primary target path distinct from the source. -/
def tpA : String := "t"

/-- A fallback target path distinct from the source and the target. -/
def fpA : String := "f"

/-- The source bytes of the concrete filesystem. -/
def srcA : List Nat := [1, 2, 3]

/-- A candidate strictly smaller than the source bytes. -/
def candA : List Nat := [9]

/-- The environment in which only the final rename of the temporary file
onto the primary target fails. -/
def moveFailEnv : CommitEnv := ⟨false, false, false, true, false⟩

/-- Claim C1: when every I/O step succeeds, a candidate at least as large as
the original is discarded (no temporary file remains) and the original is
copied byte-for-byte to the fallback target path, which is reported as the
written path; a strictly smaller candidate is renamed into place at the
primary target path, which is reported as the written path. The fallback
relative path computed for a candidate is always its unmodified relative
path. -/
theorem shrinkImage_size_guard (fs : FS)
    (sourcePath targetPath fallbackTargetPath : String) (src cand : List Nat)
    (hsrc : fsLookup fs sourcePath = some src)
    (hfb : fallbackTargetPath ≠ targetPath ++ ".tmp")
    (htp : targetPath ≠ targetPath ++ ".tmp") :
    (∀ (relPath : String) (pf : PngFormat),
      (getOutputPaths relPath pf).fallbackRelativePath = relPath) ∧
    (src.length ≤ cand.length →
      (shrinkImage fs sourcePath targetPath fallbackTargetPath (some cand)
        happyEnv).1 = some ⟨src.length, src.length, fallbackTargetPath⟩ ∧
      fsLookup (shrinkImage fs sourcePath targetPath fallbackTargetPath
        (some cand) happyEnv).2 fallbackTargetPath = some src ∧
      fsLookup (shrinkImage fs sourcePath targetPath fallbackTargetPath
        (some cand) happyEnv).2 (targetPath ++ ".tmp") = none) ∧
    (cand.length < src.length →
      (shrinkImage fs sourcePath targetPath fallbackTargetPath (some cand)
        happyEnv).1 = some ⟨src.length, cand.length, targetPath⟩ ∧
      fsLookup (shrinkImage fs sourcePath targetPath fallbackTargetPath
        (some cand) happyEnv).2 targetPath = some cand ∧
      fsLookup (shrinkImage fs sourcePath targetPath fallbackTargetPath
        (some cand) happyEnv).2 (targetPath ++ ".tmp") = none) := by
  have htmpfb : (targetPath ++ ".tmp") ≠ fallbackTargetPath := fun e => hfb e.symm
  have htmptp : (targetPath ++ ".tmp") ≠ targetPath := fun e => htp e.symm
  refine ⟨?_, ?_, ?_⟩
  · intro relPath pf
    cases pf <;> by_cases hx : lowerStr (extname relPath) = ".png" <;>
      simp [getOutputPaths, hx]
  · intro hle
    refine ⟨?_, ?_, ?_⟩
    · simp [shrinkImage, happyEnv, hsrc, hle]
    · simp [shrinkImage, happyEnv, hsrc, hle, fsLookup_fsInsert_self]
    · simp [shrinkImage, happyEnv, hsrc, hle,
        fsLookup_fsInsert_ne _ _ _ _ htmpfb, fsLookup_fsRemove_self]
  · intro hlt
    have hnle : ¬ src.length ≤ cand.length := not_le.mpr hlt
    refine ⟨?_, ?_, ?_⟩
    · simp [shrinkImage, happyEnv, hsrc, hnle]
    · simp [shrinkImage, happyEnv, hsrc, hnle, fsLookup_fsInsert_self]
    · simp [shrinkImage, happyEnv, hsrc, hnle,
        fsLookup_fsInsert_ne _ _ _ _ htmptp, fsLookup_fsRemove_self]

theorem shrinkImage_size_guard_witness :
    (shrinkImage fsA spA tpA fpA (some candA) happyEnv).1 =
      some ⟨3, 1, tpA⟩ := by
  have h := (shrinkImage_size_guard fsA spA tpA fpA srcA candA
    (by decide) (by decide) (by decide)).2.2 (by decide)
  exact h.1

/-- Claim C9 counterexample: when the rename of the temporary file onto the
primary target fails, the call fails and the original source is unmodified,
but the temporary .tmp file is left behind: shrinkImage has no cleanup on
this error path. -/
theorem shrinkImage_tmp_left_behind :
    (shrinkImage fsA spA tpA fpA (some candA) moveFailEnv).1 = none ∧
    fsLookup (shrinkImage fsA spA tpA fpA (some candA) moveFailEnv).2
      (tpA ++ ".tmp") = some candA ∧
    fsLookup (shrinkImage fsA spA tpA fpA (some candA) moveFailEnv).2 spA =
      some srcA := by
  decide

/-- Claim C9 amended: any I/O failure in the commit step makes the call fail
as a per-file error and the original source file is never modified, on every
success or failure path; a .tmp file, however, can be left behind when a step
after the temporary encode fails (cleanup happens only on the size-regression
discard path or through the successful rename). -/
theorem shrinkImage_error_preserves_source (fs : FS)
    (sourcePath targetPath fallbackTargetPath : String)
    (encoded : Option (List Nat)) (env : CommitEnv)
    (h1 : sourcePath ≠ targetPath ++ ".tmp")
    (h2 : sourcePath ≠ targetPath)
    (h3 : sourcePath ≠ fallbackTargetPath) :
    fsLookup (shrinkImage fs sourcePath targetPath fallbackTargetPath
      encoded env).2 sourcePath = fsLookup fs sourcePath := by
  obtain ⟨s1, s2, s3, s4, s5⟩ := env
  cases s1 with
  | true => simp [shrinkImage]
  | false =>
    cases hfs : fsLookup fs sourcePath with
    | none => simp [shrinkImage, hfs]
    | some src =>
      cases encoded with
      | none => simp [shrinkImage, hfs]
      | some cand =>
        by_cases hsz : src.length ≤ cand.length <;>
          cases s2 <;> cases s3 <;> cases s4 <;> cases s5 <;>
          simp [shrinkImage, hfs, hsz, fsLookup_fsInsert_ne _ _ _ _ h1,
            fsLookup_fsInsert_ne _ _ _ _ h2, fsLookup_fsInsert_ne _ _ _ _ h3,
            fsLookup_fsRemove_ne _ _ _ h1]

theorem shrinkImage_error_preserves_source_witness :
    fsLookup (shrinkImage fsA spA tpA fpA (some candA) moveFailEnv).2 spA =
      fsLookup fsA spA :=
  shrinkImage_error_preserves_source fsA spA tpA fpA (some candA) moveFailEnv
    (by decide) (by decide) (by decide)

/-- Claim C2 counterexample: a from-now run over an existing record can
regress the persisted instant. With a stored lastProcessedAt of 100, a forced
baseline write (from-now) whose override instant is 50 and zero processed
files, the cycle succeeds, is write-eligible, and persists 50, strictly
earlier than the previously stored 100. -/
theorem lastProcessedAt_regression :
    runBatchProcess 0 (some 100) (some 50) true [] = some ⟨0, 50, true⟩ ∧
    applyMetadataWrite (some 100) ⟨0, 50, true⟩ = some 50 ∧
    (50 : Int) < 100 := by
  decide

/-- Claim C2 amended: across successful cycles over an existing record the
persisted lastProcessedAt never regresses, provided a cycle that processes
zero files either supplies no override instant or supplies one no earlier
than the stored value; in particular every cycle that processes at least one
file, and every cycle without an override, is monotone. -/
theorem runBatchProcess_monotone (now old : Int) (ov : Option Int)
    (force : Bool) (files : List FileSpec) (r : BatchResult)
    (h : runBatchProcess now (some old) ov force files = some r)
    (hcond : 0 < r.processedCount ∨ ov = none ∨ ∃ t, ov = some t ∧ old ≤ t) :
    old ≤ r.updatedLastProcessedAt ∧
    ∀ s : Int, applyMetadataWrite (some old) r = some s → old ≤ s := by
  rw [runBatchProcess] at h
  simp only [Option.getD_some, Option.isSome_some] at h
  cases hpd : processDirectory (determineSince old ov) (determineSince old ov)
      0 files with
  | none =>
    rw [hpd] at h
    exact absurd h (by simp)
  | some p =>
    obtain ⟨latest, count⟩ := p
    rw [hpd] at h
    simp only [Option.some.injEq] at h
    subst h
    dsimp only at hcond ⊢
    have hupd : old ≤ computeUpdatedLastProcessedAt old latest count ov
        (decide (0 < count) || !true || force) := by
      rw [computeUpdatedLastProcessedAt]
      split_ifs with hw hc
      · exact le_refl old
      · rcases hcond with hcnt | hov | ⟨t, hts, hle⟩
        · omega
        · subst hov
          simp
        · subst hts
          simpa using hle
      · rw [maxDate]
        split_ifs with hm
        · exact le_refl old
        · omega
    refine ⟨hupd, fun s hs => ?_⟩
    rw [applyMetadataWrite] at hs
    split_ifs at hs
    · cases hs
      exact hupd
    · cases hs
      exact le_refl old

theorem runBatchProcess_monotone_witness :
    (5 : Int) ≤ (BatchResult.mk 0 5 true).updatedLastProcessedAt :=
  (runBatchProcess_monotone 0 5 none true [] ⟨0, 5, true⟩ (by decide)
    (Or.inr (Or.inl rfl))).1

/-- Claim C3: a successfully completed cycle is write-eligible exactly when
at least one file was processed, or no metadata record existed before the
cycle, or the run was explicitly baselined from-now (the forced baseline
write is exactly the presence of the from-now override); a cycle that is not
write-eligible leaves the on-disk record untouched. -/
theorem metadata_write_eligibility (now : Int) (stored : Option Int)
    (sinceOpt fromNowOpt : Option Int) (files : List FileSpec) (r : BatchResult)
    (h : runBatchProcess now stored (fromNowOpt <|> sinceOpt) fromNowOpt.isSome
      files = some r) :
    (r.shouldWriteMetadata = true ↔
      (0 < r.processedCount ∨ stored = none ∨ fromNowOpt.isSome = true)) ∧
    (r.shouldWriteMetadata = false → applyMetadataWrite stored r = stored) := by
  refine ⟨?_, fun hw => ?_⟩
  · rw [runBatchProcess] at h
    cases hpd : processDirectory
        (determineSince (stored.getD now) (fromNowOpt <|> sinceOpt))
        (determineSince (stored.getD now) (fromNowOpt <|> sinceOpt)) 0 files with
    | none =>
      rw [hpd] at h
      exact absurd h (by simp)
    | some p =>
      obtain ⟨latest, count⟩ := p
      rw [hpd] at h
      simp only [Option.some.injEq] at h
      subst h
      cases stored <;>
        simp [Bool.or_eq_true, decide_eq_true_eq]
  · rw [applyMetadataWrite, if_neg]
    simp [hw]

theorem metadata_write_eligibility_witness :
    (BatchResult.mk 0 0 true).shouldWriteMetadata = true :=
  (metadata_write_eligibility 0 none none none [] ⟨0, 0, true⟩ (by decide)).1.mpr
    (Or.inr (Or.inl rfl))

/-- Claim C6 counterexample: in a watch session started with from-now the
forced baseline write applies to every cycle, so an idle cycle (metadata
record already exists, zero files processed) does write the metadata file
again, and keeps doing so on the following idle cycle. -/
theorem idle_watch_cycle_rewrites :
    runBatchProcess 0 (some 10) (some 10) true [] = some ⟨0, 10, true⟩ ∧
    (watchCycle true 0 [] ⟨some 10, some 10⟩).2 = true ∧
    (watchCycle true 0 [] ((watchCycle true 0 [] ⟨some 10, some 10⟩).1)).2 =
      true := by
  decide

/-- Claim C6 amended: in a watch session not started with from-now, every
cycle after a metadata record exists that processes zero files leaves the
metadata file unwritten and the watch state unchanged; a from-now session
instead keeps every cycle write-eligible, and a baseline is still persisted
on first run or an explicit from-now reset. -/
theorem idle_watch_cycle_no_rewrite (now : Int) (files : List FileSpec)
    (st : WatchState) (r : BatchResult)
    (h : runBatchProcess now st.stored st.sinceForWatch false files = some r)
    (hexist : st.stored.isSome = true)
    (hzero : r.processedCount = 0) :
    (watchCycle false now files st).2 = false ∧
    (watchCycle false now files st).1 = st := by
  have hw : r.shouldWriteMetadata = false := by
    rw [runBatchProcess] at h
    cases hpd : processDirectory
        (determineSince (st.stored.getD now) st.sinceForWatch)
        (determineSince (st.stored.getD now) st.sinceForWatch) 0 files with
    | none =>
      rw [hpd] at h
      exact absurd h (by simp)
    | some p =>
      obtain ⟨latest, count⟩ := p
      rw [hpd] at h
      simp only [Option.some.injEq] at h
      subst h
      simp only at hzero
      simp [hzero, hexist]
  simp only [watchCycle, h]
  simp [hw]

theorem idle_watch_cycle_no_rewrite_witness :
    (watchCycle false 0 [] ⟨none, some 10⟩).2 = false :=
  (idle_watch_cycle_no_rewrite 0 [] ⟨none, some 10⟩ ⟨0, 10, false⟩ (by decide)
    (by decide) (by decide)).1

end PhotoReducer
